import Mathlib

/-!
Verification development for the ion shell core.

Part A embeds the pipeline executor of src/src/shell/mod.rs
(`Shell::run_pipeline` and its helpers).  Part B embeds the scoped variable
store of src/src/lib/shell/variables.rs (`Variables`).  Part C embeds the
byte-level `escape`/`unescape` pair of src/src/binary/completer.rs.

External collaborators that are not part of the sources (the parser, the
builtin implementations, statement execution, external process execution,
pipeline expansion, the old-generation flat variable map, the `scopes` crate
backing the new-generation store, and the numeric status constants) are
modelled from the specification and marked as such in their doc comments.
-/

namespace IonSpec

/-! ### Part A: the old-generation shell core (src/src/shell/mod.rs) -/

/-- Modelled from the spec: the status constants of `status.rs` are not among
the sources; the spec only needs a success code, a generic failure code, and a
distinguished "no such command" code, pairwise distinct. -/
def SUCCESS : Int := 0

/-- Modelled from the spec: generic failure status (see `SUCCESS`). -/
def FAILURE : Int := 1

/-- Modelled from the spec: distinguished "no such command" status
(see `SUCCESS`). -/
def NO_SUCH_COMMAND : Int := 127

/-- One job of a pipeline (`parser::peg::Job`); `args` is the full argument
vector whose first slot is the command name itself. -/
structure Job where
  command : String
  args : List String
deriving DecidableEq, Inhabited

/-- A pipeline (`parser::peg::Pipeline`): the ordered jobs.  The source
indexes `jobs[0]`; the parser guarantees at least one job. -/
structure Pipeline where
  jobs : List Job
deriving DecidableEq, Inhabited

/-- `flow_control::Statement`, collapsed: `run_pipeline` only distinguishes
`Statement::Pipelines` from every other variant, so the other variants are
represented by a single `other` constructor. -/
inductive Stmt where
  | pipelines (ps : List Pipeline)
  | other
deriving DecidableEq, Inhabited

/-- `flow_control::Function`: the ordered formal-parameter names and the body
statements. -/
structure Func where
  args : List String
  statements : List Stmt
deriving Inhabited

/-- The old-generation flat variable map: a total function from names to the
optionally present string value. -/
abbrev VarMap : Type := String → Option String

/-- Modelled from the spec: `Variables::get_var` of the old-generation store
(not among the sources) — plain map read. -/
def get_var (m : VarMap) (k : String) : Option String := m k

/-- Modelled from the spec: `Variables::set_var` — plain map write. -/
def set_var (m : VarMap) (k v : String) : VarMap :=
  fun n => if n = k then some v else m n

/-- Modelled from the spec: `Variables::unset_var` — plain map removal. -/
def unset_var (m : VarMap) (k : String) : VarMap :=
  fun n => if n = k then none else m n

/-- Modelled from the spec: `Variables::get_var_or_empty`. -/
def get_var_or_empty (m : VarMap) (k : String) : String := (m k).getD ""

/-- The shell state of `Shell`: the string variables, the alias map (a field
of the old-generation `Variables`), the function map, the previous exit
status, the context history, and the lines written to the error stream. -/
structure Shell where
  vars : VarMap
  aliases : String → Option String
  functions : String → Option Func
  previousStatus : Int
  history : List String
  errors : List String

/-- The external collaborators of `run_pipeline`, injected as capabilities:
the builtin table (`Builtin::map`), statement execution (`FlowLogic`,
src/shell/flow.rs, not among the sources — the claims quantify over every
body), external execution (`pipe::execute_pipeline`), statement splitting
(`StatementSplitter` composed with `parse`), pipeline expansion
(`Pipeline::expand`, reading the variable store and directory stack), and the
formatted elapsed-time summary line (wall-clock time is abstracted). -/
structure Ctx where
  builtins : String → Option (List String → Shell → Int × Shell)
  executeStatements : List Stmt → Shell → Shell
  executePipeline : Pipeline → Int
  split : String → List Stmt
  expand : Shell → Pipeline → Pipeline
  summaryLine : String

/-- `HashMap::insert` on `variables_backup`: one entry per name; inserting an
existing name overwrites its stored capture. -/
def insertBackup : List (String × Option String) → String → Option String →
    List (String × Option String)
  | [], k, vo => [(k, vo)]
  | (k', vo') :: rest, k, vo =>
    if k' = k then (k', vo) :: rest else (k', vo') :: insertBackup rest k vo

/-- The parameter-binding loop of the function branch: for each formal name
(zipped with the supplied arguments), capture the currently reachable value
into the backup map, then overwrite the variable. -/
def bindLoop : List (String × String) → List (String × Option String) → VarMap →
    List (String × Option String) × VarMap
  | [], backup, m => (backup, m)
  | (n, v) :: rest, backup, m =>
    bindLoop rest (insertBackup backup n (get_var m n)) (set_var m n v)

/-- Replaying one capture: set the name back, or unset it if it was absent. -/
def restoreOne (m : VarMap) (k : String) (vo : Option String) : VarMap :=
  match vo with
  | some v => set_var m k v
  | none => unset_var m k

/-- The restoration loop over `variables_backup` after the body finished. -/
def restoreParams : List (String × Option String) → VarMap → VarMap
  | [], m => m
  | (k, vo) :: rest, m => restoreParams rest (restoreOne m k vo)

/-- The arity-mismatch diagnostic of the function branch. -/
def arityMsg (expected provided : Nat) : String :=
  "This function takes " ++ toString expected ++ " arguments, but you provided "
    ++ toString provided

/-- The hard error of the alias branch for non-pipeline statements. -/
def aliasOnlyMsg : String :=
  "ion: syntax error: alias only supports pipeline arguments"

/-- The dispatch section of `Shell::run_pipeline` (the `if !branched` block):
builtin first, then function (with arity check, parameter binding, body
execution and restoration), then external execution. -/
def dispatch (ctx : Ctx) (p : Pipeline) (sh : Shell) : Option Int × Shell :=
  let j0 := p.jobs.headI
  match ctx.builtins j0.command with
  | some bmain =>
    let r := bmain j0.args sh
    (some r.1, r.2)
  | none =>
    match sh.functions j0.command with
    | some f =>
      if j0.args.length - 1 = f.args.length then
        let r := bindLoop (f.args.zip (j0.args.drop 1)) [] sh.vars
        let sh2 := ctx.executeStatements f.statements { sh with vars := r.2 }
        (none, { sh2 with vars := restoreParams r.1 sh2.vars })
      else
        (some NO_SUCH_COMMAND,
          { sh with errors :=
              sh.errors ++ [arityMsg f.args.length (j0.args.length - 1)] })
    | none => (some (ctx.executePipeline p), sh)

/-- The alias expansion text: one space is appended to the replacement and
then the remaining arguments are appended directly (`alias += argument`). -/
def aliasConcat (al : String) (args : List String) : String :=
  (args.drop 1).foldl (fun acc a => acc ++ a) (al ++ " ")

/-- The status bookkeeping at the end of `run_pipeline`: a present exit
status is stringified into `?` and retained as the previous status. -/
def statusUpdate (es : Option Int) (sh : Shell) : Shell :=
  match es with
  | some code =>
    { sh with vars := set_var sh.vars "?" (toString code), previousStatus := code }
  | none => sh

/-- The timing/history bookkeeping: when `RECORD_SUMMARY` is exactly `"1"`,
the summary line is appended to the history. -/
def recordSummary (ctx : Ctx) (sh : Shell) : Shell :=
  if get_var_or_empty sh.vars "RECORD_SUMMARY" = "1" then
    { sh with history := sh.history ++ [ctx.summaryLine] }
  else sh

/-- `run_pipeline` invoked with `noalias = true`: the alias branch is
skipped, so execution is expansion, dispatch, bookkeeping. -/
def runPipelineTrue (ctx : Ctx) (p0 : Pipeline) (sh : Shell) : Option Int × Shell :=
  let p := ctx.expand sh p0
  let r := dispatch ctx p sh
  (r.1, statusUpdate r.1 (recordSummary ctx r.2))

/-- One statement of an alias expansion: pipelines are executed recursively,
always with `noalias = true`; any other statement is the hard error with a
failure status. -/
def runAliasStmt (ctx : Ctx) (acc : Option Int × Shell) (st : Stmt) :
    Option Int × Shell :=
  match st with
  | .pipelines ps => ps.foldl (fun a q => runPipelineTrue ctx q a.2) acc
  | .other => (some FAILURE, { acc.2 with errors := acc.2.errors ++ [aliasOnlyMsg] })

/-- `run_pipeline` invoked with `noalias = false`: the lead command of the
expanded pipeline is looked up in the alias store; on a match the replacement
plus arguments is re-split and each statement executed via `runAliasStmt`
(and dispatch is skipped); otherwise dispatch runs. -/
def runPipelineFalse (ctx : Ctx) (p0 : Pipeline) (sh : Shell) : Option Int × Shell :=
  let p := ctx.expand sh p0
  match sh.aliases p.jobs.headI.command with
  | some al =>
    let r := (ctx.split (aliasConcat al p.jobs.headI.args)).foldl
      (runAliasStmt ctx) (none, sh)
    (r.1, statusUpdate r.1 (recordSummary ctx r.2))
  | none =>
    let r := dispatch ctx p sh
    (r.1, statusUpdate r.1 (recordSummary ctx r.2))

/-- `Shell::run_pipeline`.  The recursion of the source's alias branch always
passes `noalias = true`, which `runAliasStmt` realises with the
non-recursive `runPipelineTrue`; the definition is therefore total. -/
def runPipeline (ctx : Ctx) (noalias : Bool) (p : Pipeline) (sh : Shell) :
    Option Int × Shell :=
  if noalias then runPipelineTrue ctx p sh else runPipelineFalse ctx p sh

/-- The first word of a replacement text, as the claim about self-referential
aliases phrases it: the characters before the first space. -/
def firstWord (s : String) : String :=
  String.mk (s.toList.takeWhile (fun c => c ≠ ' '))

/-! ### Part B: the new-generation variable store
(src/src/lib/shell/variables.rs)

Names (`types::Str`) are modelled as lists of characters, so the `::` prefix
analysis of the source can be reasoned about directly. -/

/-- A name or string value, as a list of characters. -/
abbrev Str : Type := List Char

/-- The namespace qualifier `super::`. -/
def superNS : Str := ['s', 'u', 'p', 'e', 'r', ':', ':']

/-- The namespace qualifier `global::`. -/
def globalNS : Str := ['g', 'l', 'o', 'b', 'a', 'l', ':', ':']

/-- The literal name `MWD`. -/
def mwdStr : Str := ['M', 'W', 'D']

/-- The literal name `SWD`. -/
def swdStr : Str := ['S', 'W', 'D']

/-- The literal name `HOME`. -/
def homeStr : Str := ['H', 'O', 'M', 'E']

/-- The literal name `PWD`. -/
def pwdStr : Str := ['P', 'W', 'D']

/-- The namespace name `c`. -/
def cNSStr : Str := ['c']

/-- The namespace name `color`. -/
def colorNSStr : Str := ['c', 'o', 'l', 'o', 'r']

/-- The namespace name `x`. -/
def xNSStr : Str := ['x']

/-- The namespace name `hex`. -/
def hexNSStr : Str := ['h', 'e', 'x']

/-- The namespace name `env`. -/
def envNSStr : Str := ['e', 'n', 'v']

/-- The namespace name `super` (without the `::`). -/
def superWord : Str := ['s', 'u', 'p', 'e', 'r']

/-- The namespace name `global` (without the `::`). -/
def globalWord : Str := ['g', 'l', 'o', 'b', 'a', 'l']

/-- `str::starts_with` on character lists; the pattern comes first. -/
def strStartsWith : Str → Str → Bool
  | [], _ => true
  | _ :: _, [] => false
  | p :: ps, c :: cs => p == c && strStartsWith ps cs

/-- `types_rs::Value` (modelled from the spec, section 3: a closed tagged
union shared by all store consumers).  The function body is elided: none of
the code under verification consumes it. -/
inductive Value where
  | str (s : Str)
  | array (a : List Str)
  | function (params : List Str)
  | alias (a : Str)
deriving DecidableEq

/-- One level of the scope stack: a literal name-to-value mapping. -/
abbrev Frame : Type := List (Str × Value)

/-- `Variables`, wrapping the frame stack of the external `scopes` crate.
Modelled from the spec (sections 3 and 4.1): an ordered sequence of frames;
the list is ordered innermost first, so the outermost frame is last. -/
structure Variables where
  frames : List Frame
deriving DecidableEq

/-- `scopes::Namespace`. -/
inductive Namespace where
  | global
  | specific (up : Nat)
  | any
deriving DecidableEq

/-- Literal (unparsed) lookup inside one frame. -/
def frameLookup : Frame → Str → Option Value
  | [], _ => none
  | (k, v) :: rest, n => if k = n then some v else frameLookup rest n

/-- Literal lookup across frames, innermost to outermost, first hit wins. -/
def framesLookup : List Frame → Str → Option Value
  | [], _ => none
  | f :: rest, n =>
    match frameLookup f n with
    | some v => some v
    | none => framesLookup rest n

/-- Modelled from the spec: `Scopes::get_ref` — `Any` searches innermost to
outermost, `Specific up` skips the `up` innermost frames, `Global` resolves
only in the outermost frame. -/
def scopesGetRef (frames : List Frame) (n : Str) : Namespace → Option Value
  | .any => framesLookup frames n
  | .specific up => framesLookup (frames.drop up) n
  | .global => (frames.getLast?).bind (fun f => frameLookup f n)

/-- The `while name.starts_with("super::")` stripping loop of
`Variables::get_ref`: count and remove the leading `super::` repetitions.
The explicit seven-character pattern is `starts_with("super::")` written as a
match, which keeps the recursion structural. -/
def stripSuper : Str → Nat × Str
  | 's' :: 'u' :: 'p' :: 'e' :: 'r' :: ':' :: ':' :: rest =>
    let r := stripSuper rest
    (r.1 + 1, r.2)
  | s => (0, s)

/-- The namespace analysis at the head of `Variables::get_ref`. -/
def parseNamespace (name : Str) : Namespace × Str :=
  if strStartsWith globalNS name then (.global, name.drop globalNS.length)
  else if strStartsWith superNS name then
    let r := stripSuper name
    (.specific r.1, r.2)
  else (.any, name)

/-- `Variables::get_ref`. -/
def Variables.get_ref (st : Variables) (name : Str) : Option Value :=
  let r := parseNamespace name
  scopesGetRef st.frames r.2 r.1

/-- Replace the value of an existing literal key inside one frame;
`none` when the key is absent. -/
def frameReplace : Frame → Str → Value → Option Frame
  | [], _, _ => none
  | (k, w) :: rest, key, v =>
    if k = key then some ((k, v) :: rest)
    else (frameReplace rest key v).map (fun f => (k, w) :: f)

/-- Modelled from the spec: `Scopes::get_mut` locates an existing literal
binding searching innermost to outermost; `Variables::set` then overwrites it
in place.  This models the combined locate-and-overwrite. -/
def scopesGetMutSet : List Frame → Str → Value → Option (List Frame)
  | [], _, _ => none
  | f :: rest, key, v =>
    match frameReplace f key v with
    | some f2 => some (f2 :: rest)
    | none => (scopesGetMutSet rest key v).map (fun fs => f :: fs)

/-- Modelled from the spec: `Scopes::set` creates the binding in the current
innermost frame. -/
def scopesSetInnermost : List Frame → Str → Value → List Frame
  | [], key, v => [[(key, v)]]
  | f :: rest, key, v => ((key, v) :: f) :: rest

/-- `Variables::set`: overwrite the binding wherever the inner store's
`get_mut` finds it, otherwise create it in the innermost frame.  Note that
the source calls `self.0.get_mut` — the raw store lookup — and not the
namespace-guarded `Variables::get_mut`. -/
def Variables.set (st : Variables) (name : Str) (v : Value) : Variables :=
  match scopesGetMutSet st.frames name v with
  | some fs => ⟨fs⟩
  | none => ⟨scopesSetInnermost st.frames name v⟩

/-- Remove a literal key from one frame, returning the removed value. -/
def frameRemove : Frame → Str → Option (Value × Frame)
  | [], _ => none
  | (k, w) :: rest, key =>
    if k = key then some (w, rest)
    else (frameRemove rest key).map (fun r => (r.1, (k, w) :: r.2))

/-- Modelled from the spec: `Scopes::remove_variable` deletes from the first
frame, searched innermost to outermost, containing the name. -/
def scopesRemoveVar : List Frame → Str → Option Value × List Frame
  | [], _ => (none, [])
  | f :: rest, key =>
    match frameRemove f key with
    | some r => (some r.1, r.2 :: rest)
    | none =>
      let r := scopesRemoveVar rest key
      (r.1, f :: r.2)

/-- `Variables::remove_variable`, including its qualified-name guard
("Cannot mutate outer namespace"). -/
def Variables.remove_variable (st : Variables) (name : Str) :
    Option Value × Variables :=
  if strStartsWith superNS name || strStartsWith globalNS name then (none, st)
  else
    let r := scopesRemoveVar st.frames name
    (r.1, ⟨r.2⟩)

/-- `name.find("::")`: split the name at the first occurrence of `::`. -/
def splitNamespace : Str → Option (Str × Str)
  | ':' :: ':' :: rest => some ([], rest)
  | c :: rest => (splitNamespace rest).map (fun r => (c :: r.1, r.2))
  | [] => none

/-- The error kinds of `u8::from_str_radix`. -/
inductive IntErrKind where
  | empty
  | invalidDigit
  | posOverflow
deriving DecidableEq

/-- `char::to_digit(16)`. -/
def hexDigitVal (c : Char) : Option Nat :=
  if '0' ≤ c ∧ c ≤ '9' then some (c.toNat - '0'.toNat)
  else if 'a' ≤ c ∧ c ≤ 'f' then some (c.toNat - 'a'.toNat + 10)
  else if 'A' ≤ c ∧ c ≤ 'F' then some (c.toNat - 'A'.toNat + 10)
  else none

/-- The digit-accumulation loop of `from_str_radix` for `u8`, radix 16:
non-digits fail with `InvalidDigit`, exceeding one byte fails with
`PosOverflow`. -/
def hexAccum : List Char → Nat → Except IntErrKind Nat
  | [], acc => .ok acc
  | c :: rest, acc =>
    match hexDigitVal c with
    | none => .error .invalidDigit
    | some d =>
      if acc * 16 + d > 255 then .error .posOverflow
      else hexAccum rest (acc * 16 + d)

/-- `u8::from_str_radix(_, 16)`: empty input fails with `Empty`, a lone sign
with `InvalidDigit`, a leading `+` is skipped (a leading `-` on the unsigned
type falls through as a non-digit). -/
def parseU8Hex : Str → Except IntErrKind Nat
  | [] => .error .empty
  | ['+'] => .error .invalidDigit
  | '+' :: rest => hexAccum rest 0
  | s => hexAccum s 0

/-- `expansion::ExpansionError`, restricted to the variants `get_str` can
produce; `colorError` stands for the error propagated out of
`Colors::collect` (an external collaborator). -/
inductive ExpErr where
  | varNotFound
  | unsupportedNamespace (name : Str)
  | invalidHex (text : Str) (cause : IntErrKind)
  | unknownEnv (name : Str)
  | colorError
deriving DecidableEq

/-- The store's external inputs, injected as capabilities per the spec's
design note: the process environment (`none` = variable absent or not
unicode) and the colour renderer `Colors::collect` (`none` = its error). -/
structure BEnv where
  env : Str → Option Str
  colors : Str → Option Str

/-- The plain-variable arm of `get_str` (the `Some(("super", _)) |
Some(("global", _)) | None` match arm): consult `get_ref` with the full name
and fall back to the process environment. -/
def plainLookup (st : Variables) (E : BEnv) (name : Str) : Except ExpErr Str :=
  match st.get_ref name with
  | some (.str v) => .ok v
  | _ =>
    match E.env name with
    | some s => .ok s
    | none => .error .varNotFound

/-- The namespace dispatch of `Variables::get_str`: everything after the
`MWD`/`SWD` short-circuit, with the source's match-arm order. -/
def getStrCore (st : Variables) (E : BEnv) (name : Str) : Except ExpErr Str :=
  match splitNamespace name with
  | some r =>
    if r.1 = cNSStr ∨ r.1 = colorNSStr then
      match E.colors r.2 with
      | some s => .ok s
      | none => .error .colorError
    else if r.1 = xNSStr ∨ r.1 = hexNSStr then
      match parseU8Hex r.2 with
      | .ok c => .ok [Char.ofNat c]
      | .error cause => .error (.invalidHex r.2 cause)
    else if r.1 = envNSStr then
      match E.env r.2 with
      | some s => .ok s
      | none => .error (.unknownEnv r.2)
    else if r.1 = superWord ∨ r.1 = globalWord then plainLookup st E name
    else .error (.unsupportedNamespace name)
  | none => plainLookup st E name

/-- The `str::replace` loop for a nonempty pattern `p :: pt`: replace
occurrences left to right, non-overlapping.  The fuel, initialised to the
string length, bounds the loop — every iteration consumes at least one
character — keeping the recursion structural. -/
def replaceGo : Nat → Str → Char → Str → Str → Str
  | _, [], _, _, _ => []
  | 0, s, _, _, _ => s
  | fuel + 1, c :: rest, p, pt, repl =>
    if strStartsWith (p :: pt) (c :: rest) then
      repl ++ replaceGo fuel ((c :: rest).drop (p :: pt).length) p pt repl
    else c :: replaceGo fuel rest p pt repl

/-- `str::replace`: the empty pattern matches at every character boundary. -/
def replaceAll (s pat repl : Str) : Str :=
  match pat with
  | [] => repl ++ (s.map (fun c => c :: repl)).flatten
  | p :: pt => replaceGo s.length s p pt repl

/-- `str::split('/')`, keeping empty pieces (they are filtered later). -/
def splitOnSlash : Str → List Str
  | [] => [[]]
  | c :: rest =>
    if c = '/' then [] :: splitOnSlash rest
    else
      match splitOnSlash rest with
      | [] => [[c]]
      | piece :: more => (c :: piece) :: more

/-- `Variables::get_simplified_directory`: `HOME` is read through `get_str`
(for the literal name `HOME` that is exactly the namespace dispatch, `HOME`
being neither `MWD` nor `SWD`), defaulting to `?`; then `env::var("PWD")` is
`unwrap`ped — the `none` result models the panic when `PWD` is unset — and
every occurrence of the home prefix is replaced by a tilde. -/
def Variables.get_simplified_directory (st : Variables) (E : BEnv) : Option Str :=
  let home :=
    match getStrCore st E homeStr with
    | .ok h => h
    | .error _ => ['?']
  match E.env pwdStr with
  | some pwd => some (replaceAll pwd home ['~'])
  | none => none

/-- One parent component of the minimal directory: its leading grapheme
(modelled at character granularity), doubled when it is a dot; `none` models
the `unwrap` panics on the grapheme segmenter. -/
def minimalElem : Str → Option Str
  | [] => none
  | c :: rest =>
    if c = '.' then
      match rest with
      | [] => none
      | c2 :: _ => some [c, c2]
    else some [c]

/-- The parent-shortening loop of `get_minimal_directory`: each shortened
parent is followed by a slash. -/
def minimalParents : List Str → Option Str
  | [] => some []
  | e :: rest =>
    match minimalElem e, minimalParents rest with
    | some g, some out => some (g ++ '/' :: out)
    | _, _ => none

/-- `Variables::get_minimal_directory`: with more than two visible path
components, all parents are reduced and the last component appended. -/
def Variables.get_minimal_directory (st : Variables) (E : BEnv) : Option Str :=
  match st.get_simplified_directory E with
  | none => none
  | some swd =>
    let elements := (splitOnSlash swd).filter (fun e => !e.isEmpty)
    if elements.length > 2 then
      match minimalParents (elements.take (elements.length - 1)) with
      | some out => some (out ++ elements.getLastD [])
      | none => none
    else some swd

/-- `Variables::get_str`: the `MWD`/`SWD` short-circuit followed by the
namespace dispatch.  The outer `none` models a panic, which is reachable only
through the `MWD`/`SWD` computations. -/
def Variables.get_str (st : Variables) (E : BEnv) (name : Str) :
    Option (Except ExpErr Str) :=
  if name = mwdStr then (st.get_minimal_directory E).map .ok
  else if name = swdStr then (st.get_simplified_directory E).map .ok
  else some (getStrCore st E name)

/-! ### Part C: completion escaping (src/src/binary/completer.rs)

`escape` and `unescape` traverse the byte sequence of the input string; they
are embedded here at byte level (`Nat` values below 256). -/

/-- The byte `b'\\'`. -/
def backslashByte : Nat := 92

/-- The fixed special byte set of `escape`/`unescape`:
`( ) [ ] & $ @ { } < > ; " ' # ^ * space`. -/
def isSpecialByte (b : Nat) : Bool :=
  b == 40 || b == 41 || b == 91 || b == 93 || b == 38 || b == 36 || b == 64 ||
  b == 123 || b == 125 || b == 60 || b == 62 || b == 59 || b == 34 || b == 39 ||
  b == 35 || b == 94 || b == 42 || b == 32

/-- `escape`: push one backslash before every special byte. -/
def escape : List Nat → List Nat
  | [] => []
  | b :: rest =>
    (if isSpecialByte b then [backslashByte, b] else [b]) ++ escape rest

/-- The `unescape` loop; `check` records a pending backslash.  A pending
backslash at the end of the input is dropped, exactly as in the source. -/
def unescapeGo : List Nat → Bool → List Nat
  | [], _ => []
  | b :: rest, check =>
    if b == backslashByte && !check then unescapeGo rest true
    else if isSpecialByte b && check then b :: unescapeGo rest false
    else if check then backslashByte :: b :: unescapeGo rest false
    else b :: unescapeGo rest false

/-- `unescape`. -/
def unescape (input : List Nat) : List Nat := unescapeGo input false

/-! ### Specification-side helper notions and concrete instances -/

/-- First-match lookup in the backup association list (proof-side view of the
backup `HashMap`). -/
def lookupB : List (String × Option String) → String → Option (Option String)
  | [], _ => none
  | (k, vo) :: rest, n => if k = n then some vo else lookupB rest n

/-- The keys of a backup list. -/
def keysB (b : List (String × Option String)) : List String := b.map Prod.fst

/-- `k` repetitions of the `super::` qualifier, prepended to a name. -/
def superRep : Nat → Str
  | 0 => []
  | k + 1 => superNS ++ superRep k

/-- A stack of `j` empty frames (on the innermost side). -/
def emptyFrames (j : Nat) : List Frame := List.replicate j []

/-- A trivial collaborator context: no builtins, statement execution that
leaves the shell untouched, external status 0, a splitter producing no
statements, identity expansion. -/
def trivCtx : Ctx where
  builtins := fun _ => none
  executeStatements := fun _ sh => sh
  executePipeline := fun _ => 0
  split := fun _ => []
  expand := fun _ p => p
  summaryLine := ""

/-- A context whose statement execution clobbers the variable `x`. -/
def clobberCtx : Ctx :=
  { trivCtx with
    executeStatements := fun _ sh => { sh with vars := set_var sh.vars "x" "clobbered" } }

/-- A shell with `x = outer` and a function `f` of one parameter `x`. -/
def shOneX : Shell where
  vars := fun n => if n = "x" then some "outer" else none
  aliases := fun _ => none
  functions := fun n => if n = "f" then some ⟨["x"], []⟩ else none
  previousStatus := 0
  history := []
  errors := []

/-- A shell with `x = outer` and a function `f` whose two formal parameters
are both named `x`. -/
def shDupX : Shell :=
  { shOneX with functions := fun n => if n = "f" then some ⟨["x", "x"], []⟩ else none }

/-- A shell with `? = 0` and a function `f` of one parameter named `?`. -/
def shOneQ : Shell :=
  { shOneX with
    vars := fun n => if n = "?" then some "0" else none
    functions := fun n => if n = "f" then some ⟨["?"], []⟩ else none }

/-- A shell with `? = 0` and a function `f` whose two formal parameters are
both named `?`. -/
def shDupQ : Shell :=
  { shOneQ with functions := fun n => if n = "f" then some ⟨["?", "?"], []⟩ else none }

/-- A shell with the self-referential alias `x` whose replacement's first
word is `x` itself. -/
def shSelfAlias : Shell :=
  { shOneX with
    vars := fun _ => none
    aliases := fun n => if n = "x" then some "x -l" else none
    functions := fun _ => none }

/-- Invocation of `f` with one argument. -/
def pipeFa : Pipeline := ⟨[⟨"f", ["f", "a"]⟩]⟩

/-- Invocation of `f` with two arguments. -/
def pipeFab : Pipeline := ⟨[⟨"f", ["f", "a", "b"]⟩]⟩

/-- Invocation of `f` with three arguments. -/
def pipeFabc : Pipeline := ⟨[⟨"f", ["f", "a", "b", "c"]⟩]⟩

/-- Invocation of the alias `x`. -/
def pipeX : Pipeline := ⟨[⟨"x", ["x"]⟩]⟩

/-- A store environment with nothing set. -/
def envNoneB : BEnv where
  env := fun _ => none
  colors := fun _ => none

/-- A one-frame store binding only `x`. -/
def stXOld : Variables := ⟨[[("x".toList, Value.str "old".toList)]]⟩

/-! ### Lemmas about the old-generation shell core -/

theorem lookupB_insertBackup (b : List (String × Option String)) (k : String)
    (vo : Option String) (n : String) :
    lookupB (insertBackup b k vo) n = if k = n then some vo else lookupB b n := by
  induction b with
  | nil => simp [insertBackup, lookupB]
  | cons kv rest ih =>
    obtain ⟨k', vo'⟩ := kv
    by_cases hk : k' = k
    · subst hk
      by_cases hn : k' = n <;> simp [insertBackup, lookupB, hn]
    · by_cases hn : k' = n
      · subst hn
        have hkn : ¬ k = k' := fun h => hk h.symm
        simp [insertBackup, lookupB, hk, hkn]
      · simp [insertBackup, lookupB, hk, hn, ih]

theorem mem_keysB_insertBackup {b : List (String × Option String)} {k n : String}
    {vo : Option String} :
    n ∈ keysB (insertBackup b k vo) ↔ n ∈ keysB b ∨ n = k := by
  induction b with
  | nil => simp [insertBackup, keysB]
  | cons kv rest ih =>
    obtain ⟨k', vo'⟩ := kv
    by_cases hk : k' = k
    · subst hk
      simp [insertBackup, keysB]
      tauto
    · simp [insertBackup, hk, keysB] at ih ⊢
      tauto

theorem nodup_keysB_insertBackup {b : List (String × Option String)} (k : String)
    (vo : Option String) (h : (keysB b).Nodup) :
    (keysB (insertBackup b k vo)).Nodup := by
  induction b with
  | nil => simp [insertBackup, keysB]
  | cons kv rest ih =>
    obtain ⟨k', vo'⟩ := kv
    simp only [keysB, List.map_cons, List.nodup_cons] at h
    by_cases hk : k' = k
    · subst hk
      have hins : insertBackup ((k', vo') :: rest) k' vo = (k', vo) :: rest := by
        simp [insertBackup]
      rw [hins]
      simp only [keysB, List.map_cons, List.nodup_cons]
      exact h
    · simp only [insertBackup, if_neg hk, keysB, List.map_cons, List.nodup_cons]
      refine ⟨?_, ih h.2⟩
      intro hmem
      rcases mem_keysB_insertBackup.mp hmem with hmem | hmem
      · exact h.1 hmem
      · exact hk hmem

theorem bindLoop_append (p1 p2 : List (String × String))
    (b : List (String × Option String)) (m : VarMap) :
    bindLoop (p1 ++ p2) b m = bindLoop p2 (bindLoop p1 b m).1 (bindLoop p1 b m).2 := by
  induction p1 generalizing b m with
  | nil => simp [bindLoop]
  | cons nv rest ih =>
    obtain ⟨n, v⟩ := nv
    simp [bindLoop, ih]

theorem bindLoop_vars_not_mem {pairs : List (String × String)} {n : String}
    (b : List (String × Option String)) (m : VarMap)
    (h : n ∉ pairs.map Prod.fst) : (bindLoop pairs b m).2 n = m n := by
  induction pairs generalizing b m with
  | nil => rfl
  | cons kv rest ih =>
    obtain ⟨k, v⟩ := kv
    simp only [List.map_cons, List.mem_cons, not_or] at h
    rw [bindLoop, ih _ _ h.2]
    simp [set_var, h.1]

theorem bindLoop_backup_not_mem {pairs : List (String × String)} {n : String}
    (b : List (String × Option String)) (m : VarMap)
    (h : n ∉ pairs.map Prod.fst) :
    lookupB (bindLoop pairs b m).1 n = lookupB b n := by
  induction pairs generalizing b m with
  | nil => rfl
  | cons kv rest ih =>
    obtain ⟨k, v⟩ := kv
    simp only [List.map_cons, List.mem_cons, not_or] at h
    rw [bindLoop, ih _ _ h.2, lookupB_insertBackup,
      if_neg (fun hh : k = n => h.1 hh.symm)]

theorem bindLoop_keys_nodup (pairs : List (String × String))
    (b : List (String × Option String)) (m : VarMap) (h : (keysB b).Nodup) :
    (keysB (bindLoop pairs b m).1).Nodup := by
  induction pairs generalizing b m with
  | nil => exact h
  | cons kv rest ih =>
    obtain ⟨k, v⟩ := kv
    rw [bindLoop]
    exact ih _ _ (nodup_keysB_insertBackup _ _ h)

theorem restoreParams_not_mem {b : List (String × Option String)} {n : String}
    (m : VarMap) (h : n ∉ keysB b) : restoreParams b m n = m n := by
  induction b generalizing m with
  | nil => rfl
  | cons kv rest ih =>
    obtain ⟨k, vo⟩ := kv
    simp only [keysB, List.map_cons, List.mem_cons, not_or] at h
    rw [restoreParams, ih _ h.2]
    cases vo <;> simp [restoreOne, set_var, unset_var, h.1]

theorem restoreParams_lookup {b : List (String × Option String)}
    (m : VarMap) (n : String) (h : (keysB b).Nodup) :
    restoreParams b m n = (lookupB b n).getD (m n) := by
  induction b generalizing m with
  | nil => rfl
  | cons kv rest ih =>
    obtain ⟨k, vo⟩ := kv
    simp only [keysB, List.map_cons, List.nodup_cons] at h
    rw [restoreParams, lookupB]
    by_cases hn : k = n
    · subst hn
      rw [restoreParams_not_mem _ h.1, if_pos rfl]
      cases vo <;> simp [restoreOne, set_var, unset_var]
    · rw [ih _ h.2, if_neg hn]
      have hnk : ¬ n = k := fun hh => hn hh.symm
      have hres : restoreOne m k vo n = m n := by
        cases vo <;> simp [restoreOne, set_var, unset_var, hnk]
      rw [hres]

theorem bindLoop_backup_capture {p1 p2 : List (String × String)} {n : String}
    {v : String} (m : VarMap)
    (h1 : n ∉ p1.map Prod.fst) (h2 : n ∉ p2.map Prod.fst) :
    lookupB (bindLoop (p1 ++ (n, v) :: p2) [] m).1 n = some (m n) := by
  rw [bindLoop_append, bindLoop, bindLoop_backup_not_mem _ _ h2, lookupB_insertBackup]
  rw [if_pos rfl, get_var, bindLoop_vars_not_mem _ _ h1]

/-- The heart of the save/restore argument: when a name occurs at most once
among the bound parameter names, the restoration loop puts back exactly the
value the name had before binding, whatever the body did to it. -/
theorem funcCall_restore {pairs : List (String × String)} {n : String}
    (m mb : VarMap) (hmem : n ∈ pairs.map Prod.fst)
    (hcount : (pairs.map Prod.fst).count n ≤ 1) :
    restoreParams (bindLoop pairs [] m).1 mb n = m n := by
  obtain ⟨⟨k, v⟩, hkv, hk⟩ := List.mem_map.mp hmem
  have hkn : k = n := hk
  subst hkn
  obtain ⟨p1, p2, rfl⟩ := List.append_of_mem hkv
  have hmap : (p1 ++ (k, v) :: p2).map Prod.fst =
      p1.map Prod.fst ++ k :: p2.map Prod.fst := by simp
  rw [hmap, List.count_append, List.count_cons_self] at hcount
  have h1 : k ∉ p1.map Prod.fst := by
    rw [← List.count_eq_zero]
    omega
  have h2 : k ∉ p2.map Prod.fst := by
    rw [← List.count_eq_zero]
    omega
  rw [restoreParams_lookup _ _ (bindLoop_keys_nodup _ _ _ (by simp [keysB]))]
  rw [bindLoop_backup_capture m h1 h2]
  rfl

theorem recordSummary_vars (ctx : Ctx) (sh : Shell) :
    (recordSummary ctx sh).vars = sh.vars := by
  rw [recordSummary]
  split <;> rfl

theorem recordSummary_previousStatus (ctx : Ctx) (sh : Shell) :
    (recordSummary ctx sh).previousStatus = sh.previousStatus := by
  rw [recordSummary]
  split <;> rfl

theorem statusUpdate_none (sh : Shell) : statusUpdate none sh = sh := rfl

/-- Unfolding of `run_pipeline` (alias pass) down the function branch: no
alias, no builtin, a function with matching arity — bind, execute, restore,
no exit status. -/
theorem runPipeline_function_branch (ctx : Ctx) (sh : Shell) (p : Pipeline)
    (f : Func) (j0 : Job) (rest : List Job)
    (hjobs : (ctx.expand sh p).jobs = j0 :: rest)
    (halias : sh.aliases j0.command = none)
    (hblt : ctx.builtins j0.command = none)
    (hfn : sh.functions j0.command = some f)
    (harity : j0.args.length - 1 = f.args.length) :
    runPipeline ctx false p sh =
      (none, statusUpdate none (recordSummary ctx
        { ctx.executeStatements f.statements
            { sh with vars := (bindLoop (f.args.zip (j0.args.drop 1)) [] sh.vars).2 } with
          vars := restoreParams (bindLoop (f.args.zip (j0.args.drop 1)) [] sh.vars).1
            (ctx.executeStatements f.statements
              { sh with
                vars := (bindLoop (f.args.zip (j0.args.drop 1)) [] sh.vars).2 }).vars })) := by
  have h0 : runPipeline ctx false p sh = runPipelineFalse ctx p sh := rfl
  rw [h0]
  simp only [runPipelineFalse, hjobs, List.headI_cons, halias, dispatch, hblt, hfn,
    if_pos harity]

/-! ### Claims about the pipeline executor -/

/-- Claim C1, counterexample: the claim fails for a function whose formal
parameter list repeats a name.  With `f` declared over parameters `x, x`,
outer `x = outer`, the call `f a b` with an empty body leaves `x = a`: the
backup `HashMap` collapses the two captures, and the surviving capture holds
the value written by the first binding, not the outer value. -/
theorem c1_counterexample :
    (runPipeline trivCtx false pipeFab shDupX).2.vars "x" = some "a" ∧
    shDupX.vars "x" = some "outer" := ⟨rfl, rfl⟩

/-- Claim C1, amended: for every function call whose formal parameter names
are pairwise distinct, after the call returns each parameter name's outer
value and presence are exactly as before the call, for every body (the body
is an arbitrary state transformation) — captures are taken per parameter
before binding and replayed after the body finishes. -/
theorem c1_param_restore (ctx : Ctx) (sh : Shell) (p : Pipeline) (f : Func)
    (j0 : Job) (rest : List Job)
    (hjobs : (ctx.expand sh p).jobs = j0 :: rest)
    (halias : sh.aliases j0.command = none)
    (hblt : ctx.builtins j0.command = none)
    (hfn : sh.functions j0.command = some f)
    (harity : j0.args.length - 1 = f.args.length)
    (hnodup : f.args.Nodup) :
    ∀ n ∈ f.args, (runPipeline ctx false p sh).2.vars n = sh.vars n := by
  intro n hn
  have hmapfst : (f.args.zip (j0.args.drop 1)).map Prod.fst = f.args := by
    apply List.map_fst_zip
    rw [List.length_drop]
    omega
  rw [runPipeline_function_branch ctx sh p f j0 rest hjobs halias hblt hfn harity]
  rw [statusUpdate_none]
  simp only [recordSummary_vars]
  exact funcCall_restore sh.vars _ (by rw [hmapfst]; exact hn)
    (by rw [hmapfst]; exact List.nodup_iff_count_le_one.mp hnodup n)

/-- Claim C1, witness: a function of one parameter `x` shadowing outer
`x = outer`, whose body reassigns `x` to `clobbered`, restores `x = outer`
after the call. -/
theorem c1_witness :
    (runPipeline clobberCtx false pipeFa shOneX).2.vars "x" = some "outer" := by
  have h := c1_param_restore clobberCtx shOneX pipeFa ⟨["x"], []⟩
    ⟨"f", ["f", "a"]⟩ [] rfl rfl rfl rfl rfl (by decide) "x" (by decide)
  rw [h]
  rfl

/-- Claim C2: for an alias whose replacement's first word is its own name,
running a pipeline whose (expanded) lead command matches the alias
terminates, the expansion executed statement by statement with the recursion
always on the `noalias = true` pass; and that second pass always proceeds
straight to dispatch — the second equation makes no reference to the alias
branch, so alias lookup is never re-entered. -/
theorem c2_self_alias_terminates (ctx : Ctx) (sh : Shell) (p : Pipeline)
    (al : String)
    (hal : sh.aliases (ctx.expand sh p).jobs.headI.command = some al)
    (_hself : firstWord al = (ctx.expand sh p).jobs.headI.command) :
    (runPipeline ctx false p sh =
      (let r := (ctx.split (aliasConcat al (ctx.expand sh p).jobs.headI.args)).foldl
          (runAliasStmt ctx) (none, sh)
       (r.1, statusUpdate r.1 (recordSummary ctx r.2)))) ∧
    (∀ q s, runPipeline ctx true q s =
      (let d := dispatch ctx (ctx.expand s q) s
       (d.1, statusUpdate d.1 (recordSummary ctx d.2)))) := by
  constructor
  · have h0 : runPipeline ctx false p sh = runPipelineFalse ctx p sh := rfl
    rw [h0]
    simp only [runPipelineFalse, hal]
  · intro q s
    rfl

/-- Claim C2, witness: the self-referential alias `x` with replacement
`x -l`. -/
theorem c2_witness :
    runPipeline trivCtx false pipeX shSelfAlias = (none, shSelfAlias) ∧
    runPipeline trivCtx true pipeX shSelfAlias =
      (let d := dispatch trivCtx (trivCtx.expand shSelfAlias pipeX) shSelfAlias
       (d.1, statusUpdate d.1 (recordSummary trivCtx d.2))) := by
  have h := c2_self_alias_terminates trivCtx shSelfAlias pipeX "x -l" rfl rfl
  refine ⟨?_, h.2 pipeX shSelfAlias⟩
  rw [h.1]
  rfl

/-- Claim C5: an arity mismatch in the function branch yields the
distinguished, non-zero `NO_SUCH_COMMAND` status, appends exactly one
diagnostic line to the error stream, and performs no scope mutation: the
shell is otherwise unchanged, so no parameter is bound and no binding
changes. -/
theorem c5_arity_mismatch (ctx : Ctx) (sh : Shell) (p : Pipeline) (f : Func)
    (j0 : Job) (rest : List Job)
    (hjobs : p.jobs = j0 :: rest)
    (hblt : ctx.builtins j0.command = none)
    (hfn : sh.functions j0.command = some f)
    (hmis : j0.args.length - 1 ≠ f.args.length) :
    dispatch ctx p sh =
      (some NO_SUCH_COMMAND,
        { sh with errors :=
            sh.errors ++ [arityMsg f.args.length (j0.args.length - 1)] }) ∧
    NO_SUCH_COMMAND ≠ 0 ∧ NO_SUCH_COMMAND ≠ FAILURE ∧
    (dispatch ctx p sh).2.vars = sh.vars ∧
    (dispatch ctx p sh).2.previousStatus = sh.previousStatus := by
  have hd : dispatch ctx p sh =
      (some NO_SUCH_COMMAND,
        { sh with errors :=
            sh.errors ++ [arityMsg f.args.length (j0.args.length - 1)] }) := by
    simp only [dispatch, hjobs, List.headI_cons, hblt, hfn, if_neg hmis]
  refine ⟨hd, by decide, by decide, ?_, ?_⟩ <;> rw [hd]

/-- Claim C5, witness: calling the one-parameter function `f` with three
arguments. -/
theorem c5_witness :
    dispatch trivCtx pipeFabc shOneX =
      (some NO_SUCH_COMMAND, { shOneX with errors := [arityMsg 1 3] }) ∧
    NO_SUCH_COMMAND ≠ 0 ∧ NO_SUCH_COMMAND ≠ FAILURE ∧
    (dispatch trivCtx pipeFabc shOneX).2.vars = shOneX.vars ∧
    (dispatch trivCtx pipeFabc shOneX).2.previousStatus = shOneX.previousStatus := by
  have h := c5_arity_mismatch trivCtx shOneX pipeFabc ⟨["x"], []⟩
    ⟨"f", ["f", "a", "b", "c"]⟩ [] rfl rfl rfl (by decide)
  exact ⟨h.1, h.2.1, h.2.2.1, h.2.2.2.1, h.2.2.2.2⟩

/-- A produced exit status is written into `?` (stringified) and retained as
the previous status. -/
theorem statusUpdate_pair_status {X : Option Int × Shell} {sh2 : Shell}
    {code : Int} (h : X.1 = some code) :
    (statusUpdate X.1 sh2).vars "?" = some (toString code) ∧
    (statusUpdate X.1 sh2).previousStatus = code := by
  rw [h]
  exact ⟨by simp [statusUpdate, set_var], rfl⟩

/-- Claim C6, amended: (i) whenever `run_pipeline` produces a status, that
status is stringified into the `?` binding and retained as the shell's
previous status; (ii) a function call (matching arity) whose formal
parameter list does not repeat the name `?` and whose body preserves the
previous status and the `?` binding leaves both exactly unchanged. -/
theorem c6_status_propagation :
    (∀ (ctx : Ctx) (na : Bool) (p : Pipeline) (sh : Shell) (code : Int),
      (runPipeline ctx na p sh).1 = some code →
      (runPipeline ctx na p sh).2.vars "?" = some (toString code) ∧
      (runPipeline ctx na p sh).2.previousStatus = code) ∧
    (∀ (ctx : Ctx) (sh : Shell) (p : Pipeline) (f : Func) (j0 : Job)
      (rest : List Job),
      (ctx.expand sh p).jobs = j0 :: rest →
      sh.aliases j0.command = none →
      ctx.builtins j0.command = none →
      sh.functions j0.command = some f →
      j0.args.length - 1 = f.args.length →
      f.args.count "?" ≤ 1 →
      (∀ s, (ctx.executeStatements f.statements s).previousStatus =
        s.previousStatus) →
      (∀ s, (ctx.executeStatements f.statements s).vars "?" = s.vars "?") →
      (runPipeline ctx false p sh).2.previousStatus = sh.previousStatus ∧
      (runPipeline ctx false p sh).2.vars "?" = sh.vars "?") := by
  constructor
  · intro ctx na p sh code h
    cases na with
    | true => exact statusUpdate_pair_status h
    | false =>
      cases hA : sh.aliases (ctx.expand sh p).jobs.headI.command with
      | some al =>
        have h0 : runPipeline ctx false p sh = runPipelineFalse ctx p sh := rfl
        rw [h0] at h ⊢
        simp only [runPipelineFalse, hA] at h ⊢
        exact statusUpdate_pair_status h
      | none =>
        have h0 : runPipeline ctx false p sh = runPipelineFalse ctx p sh := rfl
        rw [h0] at h ⊢
        simp only [runPipelineFalse, hA] at h ⊢
        exact statusUpdate_pair_status h
  · intro ctx sh p f j0 rest hjobs halias hblt hfn harity hcount hbodyStatus hbodyQ
    have hmapfst : (f.args.zip (j0.args.drop 1)).map Prod.fst = f.args := by
      apply List.map_fst_zip
      rw [List.length_drop]
      omega
    rw [runPipeline_function_branch ctx sh p f j0 rest hjobs halias hblt hfn harity,
      statusUpdate_none]
    constructor
    · rw [recordSummary_previousStatus]
      exact hbodyStatus _
    · rw [recordSummary_vars]
      by_cases hq : "?" ∈ f.args
      · exact funcCall_restore sh.vars _ (by rw [hmapfst]; exact hq)
          (by rw [hmapfst]; exact hcount)
      · have hq' : "?" ∉ (f.args.zip (j0.args.drop 1)).map Prod.fst := by
          rw [hmapfst]
          exact hq
        have hkeys := bindLoop_keys_nodup (f.args.zip (j0.args.drop 1)) [] sh.vars
          (by simp [keysB])
        show restoreParams (bindLoop (f.args.zip (j0.args.drop 1)) [] sh.vars).1
            (ctx.executeStatements f.statements
              { sh with
                vars := (bindLoop (f.args.zip (j0.args.drop 1)) [] sh.vars).2 }).vars "?"
          = sh.vars "?"
        rw [restoreParams_lookup _ _ hkeys, bindLoop_backup_not_mem _ _ hq']
        simp only [lookupB, Option.getD_none]
        rw [hbodyQ]
        exact bindLoop_vars_not_mem _ _ hq'

/-- Claim C6, counterexample: the claim as stated fails for a function whose
formal parameter list repeats `?`.  With `f` declared over `?, ?` and outer
`? = 0`, the call `f a b` with a body that never sets a status returns no
exit status, yet leaves `? = a`. -/
theorem c6_counterexample :
    (runPipeline trivCtx false pipeFab shDupQ).1 = none ∧
    (runPipeline trivCtx false pipeFab shDupQ).2.vars "?" = some "a" ∧
    shDupQ.vars "?" = some "0" := ⟨rfl, rfl, rfl⟩

/-- Claim C6, witness: part (i) at a concrete external command with status
0, and part (ii) at a function of one parameter `?` with an untouched
body. -/
theorem c6_witness :
    ((runPipeline trivCtx true pipeX shSelfAlias).2.vars "?" = some (toString (0 : Int)) ∧
      (runPipeline trivCtx true pipeX shSelfAlias).2.previousStatus = 0) ∧
    ((runPipeline trivCtx false pipeFa shOneQ).2.previousStatus =
        shOneQ.previousStatus ∧
      (runPipeline trivCtx false pipeFa shOneQ).2.vars "?" = shOneQ.vars "?") := by
  constructor
  · exact c6_status_propagation.1 trivCtx true pipeX shSelfAlias 0 rfl
  · exact c6_status_propagation.2 trivCtx shOneQ pipeFa ⟨["?"], []⟩
      ⟨"f", ["f", "a"]⟩ [] rfl rfl rfl rfl rfl (by decide)
      (fun _ => rfl) (fun _ => rfl)

/-- Claim C7, evaluated at the failing input: the alias expansion text fuses
the caller's remaining arguments.  The alias replacement `git` invoked as
`g status -v` produces the text `git status-v` — a single space after the
replacement and no separator between arguments — not the space-joined
`git status -v` the claim describes. -/
theorem c7_alias_args_fused :
    aliasConcat "git" ["g", "status", "-v"] = "git status-v" ∧
    aliasConcat "git" ["g", "status", "-v"] ≠ "git status -v" := by
  refine ⟨rfl, ?_⟩
  decide

/-! ### Lemmas about the new-generation variable store -/

theorem strStartsWith_exists {p s : Str} (h : strStartsWith p s = true) :
    ∃ t, s = p ++ t := by
  induction p generalizing s with
  | nil => exact ⟨s, rfl⟩
  | cons a ps ih =>
    cases s with
    | nil => simp [strStartsWith] at h
    | cons c cs =>
      simp only [strStartsWith, Bool.and_eq_true, beq_iff_eq] at h
      obtain ⟨t, ht⟩ := ih h.2
      exact ⟨t, by simp [h.1, ht]⟩

theorem strStartsWith_append_self (p t : Str) : strStartsWith p (p ++ t) = true := by
  induction p with
  | nil => rfl
  | cons a ps ih => simp [strStartsWith, ih]

theorem splitNamespace_cons_ne (c : Char) (t : Str) (hc : c ≠ ':') :
    splitNamespace (c :: t) = (splitNamespace t).map (fun r => (c :: r.1, r.2)) := by
  rw [splitNamespace.eq_def]
  split
  · rename_i rest heq
    rw [List.cons_eq_cons] at heq
    exact absurd heq.1 hc
  · rename_i c' rest' _ heq
    rw [List.cons_eq_cons] at heq
    rw [heq.1, heq.2]
  · rename_i heq
    exact absurd heq (by simp)

theorem splitNamespace_prefix (l r : Str) (hl : ':' ∉ l) :
    splitNamespace (l ++ ':' :: ':' :: r) = some (l, r) := by
  induction l with
  | nil => rfl
  | cons c l ih =>
    simp only [List.mem_cons, not_or] at hl
    rw [List.cons_append, splitNamespace_cons_ne c _ (fun h => hl.1 h.symm),
      ih hl.2]
    rfl

theorem splitNamespace_superNS (t : Str) :
    splitNamespace (superNS ++ t) = some (superWord, t) := by
  have h : superNS ++ t = superWord ++ ':' :: ':' :: t := rfl
  rw [h]
  exact splitNamespace_prefix _ _ (by decide)

theorem splitNamespace_globalNS (t : Str) :
    splitNamespace (globalNS ++ t) = some (globalWord, t) := by
  have h : globalNS ++ t = globalWord ++ ':' :: ':' :: t := rfl
  rw [h]
  exact splitNamespace_prefix _ _ (by decide)

theorem parseNamespace_any {name : Str} (h : splitNamespace name = none) :
    parseNamespace name = (.any, name) := by
  have hg : ¬ strStartsWith globalNS name = true := by
    intro hS
    obtain ⟨t, rfl⟩ := strStartsWith_exists hS
    rw [splitNamespace_globalNS] at h
    exact Option.some_ne_none _ h
  have hs : ¬ strStartsWith superNS name = true := by
    intro hS
    obtain ⟨t, rfl⟩ := strStartsWith_exists hS
    rw [splitNamespace_superNS] at h
    exact Option.some_ne_none _ h
  rw [parseNamespace, if_neg hg, if_neg hs]

theorem stripSuper_superNS (t : Str) :
    stripSuper (superNS ++ t) = ((stripSuper t).1 + 1, (stripSuper t).2) := rfl

theorem stripSuper_no {s : Str} (h : strStartsWith superNS s = false) :
    stripSuper s = (0, s) := by
  rw [stripSuper.eq_def]
  split
  · rename_i rest
    simp [superNS, strStartsWith] at h
  · rfl

theorem stripSuper_superRep (k : Nat) (t : Str)
    (h : strStartsWith superNS t = false) :
    stripSuper (superRep k ++ t) = (k, t) := by
  induction k with
  | zero => simpa [superRep] using stripSuper_no h
  | succ k ih =>
    have hassoc : superRep (k + 1) ++ t = superNS ++ (superRep k ++ t) := by
      simp [superRep, List.append_assoc]
    rw [hassoc, stripSuper_superNS, ih]

theorem parseNamespace_superRep (k : Nat) (t : Str)
    (h : strStartsWith superNS t = false) :
    parseNamespace (superRep (k + 1) ++ t) = (.specific (k + 1), t) := by
  have hassoc : superRep (k + 1) ++ t = superNS ++ (superRep k ++ t) := by
    simp [superRep, List.append_assoc]
  have hglobal : strStartsWith globalNS (superRep (k + 1) ++ t) = false := by
    rw [hassoc]
    rfl
  have hsuper : strStartsWith superNS (superRep (k + 1) ++ t) = true := by
    rw [hassoc]
    exact strStartsWith_append_self _ _
  rw [parseNamespace, if_neg (by rw [hglobal]; exact Bool.false_ne_true),
    if_pos hsuper, stripSuper_superRep (k + 1) t h]

theorem frameLookup_frameReplace {f f2 : Frame} {key n : Str} {v : Value}
    (hne : n ≠ key) (h : frameReplace f key v = some f2) :
    frameLookup f2 n = frameLookup f n := by
  induction f generalizing f2 with
  | nil => simp [frameReplace] at h
  | cons kv rest ih =>
    obtain ⟨k, w⟩ := kv
    by_cases hk : k = key
    · subst hk
      rw [frameReplace, if_pos rfl, Option.some_inj] at h
      subst h
      by_cases hn : k = n
      · exact absurd (hn.symm.trans rfl) hne
      · simp [frameLookup, hn]
    · rw [frameReplace, if_neg hk, Option.map_eq_some'] at h
      obtain ⟨f', hf', rfl⟩ := h
      by_cases hn : k = n <;> simp [frameLookup, hn, ih hf']

theorem frameLookup_frameReplace_self {f f2 : Frame} {key : Str} {v : Value}
    (h : frameReplace f key v = some f2) : frameLookup f2 key = some v := by
  induction f generalizing f2 with
  | nil => simp [frameReplace] at h
  | cons kv rest ih =>
    obtain ⟨k, w⟩ := kv
    by_cases hk : k = key
    · subst hk
      rw [frameReplace, if_pos rfl, Option.some_inj] at h
      subst h
      simp [frameLookup]
    · rw [frameReplace, if_neg hk, Option.map_eq_some'] at h
      obtain ⟨f', hf', rfl⟩ := h
      simp [frameLookup, hk, ih hf']

theorem frameLookup_of_frameReplace_none {f : Frame} {key : Str} {v : Value}
    (h : frameReplace f key v = none) : frameLookup f key = none := by
  induction f with
  | nil => rfl
  | cons kv rest ih =>
    obtain ⟨k, w⟩ := kv
    by_cases hk : k = key
    · rw [frameReplace, if_pos hk] at h
      exact absurd h (by simp)
    · rw [frameReplace, if_neg hk, Option.map_eq_none'] at h
      rw [frameLookup, if_neg hk]
      exact ih h

theorem framesLookup_scopesGetMutSet {frames fs : List Frame} {key n : Str}
    {v : Value} (hne : n ≠ key) (h : scopesGetMutSet frames key v = some fs) :
    framesLookup fs n = framesLookup frames n := by
  induction frames generalizing fs with
  | nil => simp [scopesGetMutSet] at h
  | cons f rest ih =>
    rw [scopesGetMutSet] at h
    cases hf : frameReplace f key v with
    | some f2 =>
      simp only [hf, Option.some_inj] at h
      subst h
      rw [framesLookup, framesLookup, frameLookup_frameReplace hne hf]
    | none =>
      simp only [hf, Option.map_eq_some'] at h
      obtain ⟨fs', h1, rfl⟩ := h
      rw [framesLookup, framesLookup, ih h1]

theorem framesLookup_set_ne (st : Variables) (key : Str) (v : Value) {n : Str}
    (hne : n ≠ key) :
    framesLookup (st.set key v).frames n = framesLookup st.frames n := by
  rw [Variables.set]
  cases hms : scopesGetMutSet st.frames key v with
  | some fs => exact framesLookup_scopesGetMutSet hne hms
  | none =>
    have hkn : ¬ key = n := fun h => hne h.symm
    cases hfr : st.frames with
    | nil => simp [scopesSetInnermost, framesLookup, frameLookup, hkn]
    | cons f rest => simp [scopesSetInnermost, framesLookup, frameLookup, hkn]

theorem framesLookup_scopesGetMutSet_self {frames fs : List Frame} {key : Str}
    {v : Value} (h : scopesGetMutSet frames key v = some fs) :
    framesLookup fs key = some v := by
  induction frames generalizing fs with
  | nil => simp [scopesGetMutSet] at h
  | cons f rest ih =>
    rw [scopesGetMutSet] at h
    cases hf : frameReplace f key v with
    | some f2 =>
      simp only [hf, Option.some_inj] at h
      subst h
      rw [framesLookup, frameLookup_frameReplace_self hf]
    | none =>
      simp only [hf, Option.map_eq_some'] at h
      obtain ⟨fs', h1, rfl⟩ := h
      rw [framesLookup, frameLookup_of_frameReplace_none hf, ih h1]

theorem framesLookup_set_self (st : Variables) (key : Str) (v : Value) :
    framesLookup (st.set key v).frames key = some v := by
  rw [Variables.set]
  cases hms : scopesGetMutSet st.frames key v with
  | some fs => exact framesLookup_scopesGetMutSet_self hms
  | none =>
    cases st.frames with
    | nil => simp [scopesSetInnermost, framesLookup, frameLookup]
    | cons f rest => simp [scopesSetInnermost, framesLookup, frameLookup]

theorem get_str_not_pseudo (st : Variables) (E : BEnv) (name : Str)
    (hm : name ≠ mwdStr) (hs : name ≠ swdStr) :
    st.get_str E name = some (getStrCore st E name) := by
  rw [Variables.get_str, if_neg hm, if_neg hs]

theorem getStrCore_unqualified (st : Variables) (E : BEnv) {name : Str}
    (hsplit : splitNamespace name = none) :
    getStrCore st E name = plainLookup st E name := by
  rw [getStrCore, hsplit]

theorem superRep_head (k : Nat) (t : Str) :
    superRep (k + 1) ++ t =
      's' :: (('u' :: 'p' :: 'e' :: 'r' :: ':' :: ':' :: []) ++ (superRep k ++ t)) := by
  simp [superRep, superNS]

theorem superRep_ne_mwd (k : Nat) (t : Str) : superRep (k + 1) ++ t ≠ mwdStr := by
  intro h
  rw [superRep_head] at h
  exact absurd (List.cons_eq_cons.mp h).1 (by decide)

theorem superRep_ne_swd (k : Nat) (t : Str) : superRep (k + 1) ++ t ≠ swdStr := by
  intro h
  rw [superRep_head] at h
  exact absurd (List.cons_eq_cons.mp h).1 (by decide)

theorem getStrCore_superRep (st : Variables) (E : BEnv) (k : Nat) (t : Str) :
    getStrCore st E (superRep (k + 1) ++ t) =
      plainLookup st E (superRep (k + 1) ++ t) := by
  have hassoc : superRep (k + 1) ++ t = superNS ++ (superRep k ++ t) := by
    simp [superRep, List.append_assoc]
  have hsp : splitNamespace (superRep (k + 1) ++ t) =
      some (superWord, superRep k ++ t) := by
    rw [hassoc]
    exact splitNamespace_superNS _
  simp only [getStrCore, hsp]
  rw [if_neg (by decide), if_neg (by decide), if_neg (by decide)]
  simp

/-! ### Claims about the variable store -/

/-- Claim C3, counterexample: assigning through a `global::`-qualified name
is not a no-op — `Variables::set` consults the raw `self.0.get_mut`, which
misses, and then `self.0.set` stores a literal binding named `global::x` in
the innermost frame, so the store changes. -/
theorem c3_counterexample :
    (Variables.set ⟨[[]]⟩ ("global::x".toList) (Value.str ("v".toList))).frames =
      [[("global::x".toList, Value.str ("v".toList))]] ∧
    Variables.set ⟨[[]]⟩ ("global::x".toList) (Value.str ("v".toList)) ≠ ⟨[[]]⟩ := by
  refine ⟨rfl, ?_⟩
  decide

/-- Claim C3, amended: removing through a `global::`/`super::`-qualified
name is a defined no-op, and after an assignment through such a qualified
name an unqualified read returns the pre-write value (no existing binding
changes); the assignment itself, however, is not a no-op: it stores the
value under the literal qualified string (overwriting the innermost literal
occurrence, otherwise creating one in the innermost frame). -/
theorem c3_qualified_guard (st : Variables) (E : BEnv) (qn n : Str) (v : Value)
    (hq : strStartsWith superNS qn = true ∨ strStartsWith globalNS qn = true)
    (hn : splitNamespace n = none) (hm : n ≠ mwdStr) (hs : n ≠ swdStr) :
    st.remove_variable qn = (none, st) ∧
    (st.set qn v).get_str E n = st.get_str E n ∧
    framesLookup (st.set qn v).frames qn = some v := by
  have hsplitq : (splitNamespace qn).isSome = true := by
    rcases hq with h | h
    · obtain ⟨t, rfl⟩ := strStartsWith_exists h
      rw [splitNamespace_superNS]
      rfl
    · obtain ⟨t, rfl⟩ := strStartsWith_exists h
      rw [splitNamespace_globalNS]
      rfl
  have hne : n ≠ qn := by
    intro h
    rw [← h, hn] at hsplitq
    exact Bool.false_ne_true hsplitq
  refine ⟨?_, ?_, framesLookup_set_self st qn v⟩
  · have hcond : (strStartsWith superNS qn || strStartsWith globalNS qn) = true := by
      rcases hq with h | h <;> simp [h]
    rw [Variables.remove_variable, if_pos hcond]
  · rw [get_str_not_pseudo _ _ _ hm hs, get_str_not_pseudo _ _ _ hm hs,
      getStrCore_unqualified _ _ hn, getStrCore_unqualified _ _ hn]
    have href : (st.set qn v).get_ref n = st.get_ref n := by
      rw [Variables.get_ref, Variables.get_ref, parseNamespace_any hn]
      simp only [scopesGetRef]
      exact framesLookup_set_ne st qn v hne
    rw [plainLookup, plainLookup, href]

/-- Claim C3, witness: writing `global::x` over a store binding `x = old`
leaves the read of `x` unchanged, removal is a no-op, and the literal
binding `global::x` is created. -/
theorem c3_witness :
    stXOld.remove_variable ("global::x".toList) = (none, stXOld) ∧
    (stXOld.set ("global::x".toList) (Value.str ("new".toList))).get_str envNoneB
      ("x".toList) = stXOld.get_str envNoneB ("x".toList) ∧
    framesLookup (stXOld.set ("global::x".toList)
      (Value.str ("new".toList))).frames ("global::x".toList) =
      some (Value.str ("new".toList)) :=
  c3_qualified_guard stXOld envNoneB ("global::x".toList) ("x".toList)
    (Value.str ("new".toList)) (Or.inr rfl) rfl (by decide) (by decide)

/-- Claim C4: for all k, a name qualified by (k+1) repetitions of `super::`
resolves in a stack of (k+2) frames whose outermost frame alone binds the
name, and fails with `VariableNotFound` against a stack of only (k+1)
frames (no environment fallback). -/
theorem c4_super_chain (k : Nat) (x v : Str) (E : BEnv)
    (hx : strStartsWith superNS x = false)
    (henv : E.env (superRep (k + 1) ++ x) = none) :
    Variables.get_str ⟨emptyFrames (k + 1) ++ [[(x, Value.str v)]]⟩ E
      (superRep (k + 1) ++ x) = some (.ok v) ∧
    Variables.get_str ⟨emptyFrames k ++ [[(x, Value.str v)]]⟩ E
      (superRep (k + 1) ++ x) = some (.error .varNotFound) := by
  have hm := superRep_ne_mwd k x
  have hs := superRep_ne_swd k x
  have hparse := parseNamespace_superRep k x hx
  constructor
  · rw [get_str_not_pseudo _ _ _ hm hs, getStrCore_superRep]
    have hdrop : (emptyFrames (k + 1) ++ [[(x, Value.str v)]]).drop (k + 1) =
        [[(x, Value.str v)]] := by
      have hlen : (emptyFrames (k + 1)).length = k + 1 := by
        simp [emptyFrames]
      have hdl := List.drop_left (emptyFrames (k + 1)) [[(x, Value.str v)]]
      rwa [hlen] at hdl
    have href : Variables.get_ref ⟨emptyFrames (k + 1) ++ [[(x, Value.str v)]]⟩
        (superRep (k + 1) ++ x) = some (Value.str v) := by
      rw [Variables.get_ref, hparse]
      simp only [scopesGetRef, hdrop]
      simp [framesLookup, frameLookup]
    rw [plainLookup, href]
  · rw [get_str_not_pseudo _ _ _ hm hs, getStrCore_superRep]
    have hdrop : (emptyFrames k ++ [[(x, Value.str v)]]).drop (k + 1) =
        ([] : List Frame) := by
      apply List.drop_eq_nil_of_le
      simp [emptyFrames]
    have href : Variables.get_ref ⟨emptyFrames k ++ [[(x, Value.str v)]]⟩
        (superRep (k + 1) ++ x) = none := by
      rw [Variables.get_ref, hparse]
      simp only [scopesGetRef, hdrop]
      rfl
    rw [plainLookup, href, henv]

/-- Claim C4, witness: at k = 0, `super::x` resolves in a two-frame stack
with `x` bound outermost, and fails in a one-frame stack. -/
theorem c4_witness :
    Variables.get_str ⟨emptyFrames 1 ++ [[("x".toList, Value.str ("v".toList))]]⟩
      envNoneB (superRep 1 ++ "x".toList) = some (.ok ("v".toList)) ∧
    Variables.get_str ⟨emptyFrames 0 ++ [[("x".toList, Value.str ("v".toList))]]⟩
      envNoneB (superRep 1 ++ "x".toList) = some (.error .varNotFound) :=
  c4_super_chain 0 ("x".toList) ("v".toList) envNoneB rfl rfl

/-- Claim C8: the error taxonomy of string lookup — an unparseable `hex::`/
`x::` payload yields `InvalidHex` with the payload text and the parse cause;
an `env::` miss yields `UnknownEnv` with the name; any other unrecognized
`prefix::` yields `UnsupportedNamespace`; an unqualified name found in no
frame and with no environment fallback yields `VariableNotFound`. -/
theorem c8_error_taxonomy :
    (∀ (st : Variables) (E : BEnv) (name p var : Str) (cause : IntErrKind),
      name ≠ mwdStr → name ≠ swdStr →
      splitNamespace name = some (p, var) → (p = xNSStr ∨ p = hexNSStr) →
      parseU8Hex var = .error cause →
      st.get_str E name = some (.error (.invalidHex var cause))) ∧
    (∀ (st : Variables) (E : BEnv) (name p var : Str),
      name ≠ mwdStr → name ≠ swdStr →
      splitNamespace name = some (p, var) → p = envNSStr → E.env var = none →
      st.get_str E name = some (.error (.unknownEnv var))) ∧
    (∀ (st : Variables) (E : BEnv) (name p var : Str),
      name ≠ mwdStr → name ≠ swdStr →
      splitNamespace name = some (p, var) →
      p ≠ cNSStr → p ≠ colorNSStr → p ≠ xNSStr → p ≠ hexNSStr → p ≠ envNSStr →
      p ≠ superWord → p ≠ globalWord →
      st.get_str E name = some (.error (.unsupportedNamespace name))) ∧
    (∀ (st : Variables) (E : BEnv) (name : Str),
      name ≠ mwdStr → name ≠ swdStr →
      splitNamespace name = none → framesLookup st.frames name = none →
      E.env name = none →
      st.get_str E name = some (.error .varNotFound)) := by
  refine ⟨?_, ?_, ?_, ?_⟩
  · intro st E name p var cause hm hs hsplit hp hparse
    have h1 : ¬ (p = cNSStr ∨ p = colorNSStr) := by
      rcases hp with rfl | rfl <;> decide
    rw [get_str_not_pseudo _ _ _ hm hs]
    simp only [getStrCore, hsplit]
    rw [if_neg h1, if_pos hp, hparse]
  · intro st E name p var hm hs hsplit hp henv
    subst hp
    rw [get_str_not_pseudo _ _ _ hm hs]
    simp only [getStrCore, hsplit]
    simp only [henv]
    rw [if_neg (by decide), if_neg (by decide)]
    simp
  · intro st E name p var hm hs hsplit h1 h2 h3 h4 h5 h6 h7
    rw [get_str_not_pseudo _ _ _ hm hs]
    simp only [getStrCore, hsplit]
    rw [if_neg (fun h => h.elim h1 h2), if_neg (fun h => h.elim h3 h4),
      if_neg h5, if_neg (fun h => h.elim h6 h7)]
  · intro st E name hm hs hsplit hlook henv
    have href : st.get_ref name = none := by
      rw [Variables.get_ref, parseNamespace_any hsplit]
      simpa [scopesGetRef] using hlook
    rw [get_str_not_pseudo _ _ _ hm hs, getStrCore_unqualified _ _ hsplit,
      plainLookup, href, henv]

/-- Claim C8, witness: the four taxonomy cases at concrete inputs —
`x::zz`, `env::FOO`, `foo::bar`, and the unqualified `nope` against an
empty store and environment. -/
theorem c8_witness :
    Variables.get_str ⟨[[]]⟩ envNoneB ("x::zz".toList) =
      some (.error (.invalidHex ("zz".toList) .invalidDigit)) ∧
    Variables.get_str ⟨[[]]⟩ envNoneB ("env::FOO".toList) =
      some (.error (.unknownEnv ("FOO".toList))) ∧
    Variables.get_str ⟨[[]]⟩ envNoneB ("foo::bar".toList) =
      some (.error (.unsupportedNamespace ("foo::bar".toList))) ∧
    Variables.get_str ⟨[[]]⟩ envNoneB ("nope".toList) =
      some (.error .varNotFound) := by
  refine ⟨?_, ?_, ?_, ?_⟩
  · exact c8_error_taxonomy.1 ⟨[[]]⟩ envNoneB _ ("x".toList) ("zz".toList)
      .invalidDigit (by decide) (by decide) rfl (Or.inl rfl) rfl
  · exact c8_error_taxonomy.2.1 ⟨[[]]⟩ envNoneB _ envNSStr ("FOO".toList)
      (by decide) (by decide) rfl rfl rfl
  · exact c8_error_taxonomy.2.2.1 ⟨[[]]⟩ envNoneB _ ("foo".toList) ("bar".toList)
      (by decide) (by decide) rfl (by decide) (by decide) (by decide) (by decide)
      (by decide) (by decide) (by decide)
  · exact c8_error_taxonomy.2.2.2 ⟨[[]]⟩ envNoneB _ (by decide) (by decide)
      rfl rfl rfl

/-- Claim C9: the `MWD`/`SWD` pseudo-variables unwrap the environment read
of `PWD`; for every store state with `PWD` unset, the lookup reaches the
panic (modelled as `none`) instead of returning `VariableNotFound`. -/
theorem c9_pwd_unwrap_panic (st : Variables) (E : BEnv)
    (h : E.env pwdStr = none) :
    st.get_str E mwdStr = none ∧ st.get_str E swdStr = none := by
  have hsimp : st.get_simplified_directory E = none := by
    rw [Variables.get_simplified_directory, h]
  constructor
  · rw [Variables.get_str, if_pos rfl, Variables.get_minimal_directory, hsimp]
    rfl
  · rw [Variables.get_str, if_neg (by decide), if_pos rfl, hsimp]
    rfl

/-- Claim C9, witness: the empty store with an empty environment panics on
both `MWD` and `SWD`. -/
theorem c9_witness :
    Variables.get_str ⟨[[]]⟩ envNoneB mwdStr = none ∧
    Variables.get_str ⟨[[]]⟩ envNoneB swdStr = none :=
  c9_pwd_unwrap_panic ⟨[[]]⟩ envNoneB rfl

/-! ### Lemmas and claim about completion escaping -/

theorem unescapeGo_backslash (l : List Nat) :
    unescapeGo (backslashByte :: l) false = unescapeGo l true := by
  simp [unescapeGo]

theorem unescapeGo_special_checked {b : Nat} (l : List Nat)
    (h : isSpecialByte b = true) :
    unescapeGo (b :: l) true = b :: unescapeGo l false := by
  simp [unescapeGo, h]

theorem unescapeGo_plain {b : Nat} (l : List Nat)
    (hb : (b == backslashByte) = false) (hsp : isSpecialByte b = false) :
    unescapeGo (b :: l) false = b :: unescapeGo l false := by
  simp [unescapeGo, hb, hsp]

theorem unescapeGo_escape (s : List Nat) (hs : backslashByte ∉ s) :
    unescapeGo (escape s) false = s := by
  induction s with
  | nil => rfl
  | cons b rest ih =>
    simp only [List.mem_cons, not_or] at hs
    obtain ⟨hb, hrest⟩ := hs
    rw [escape]
    by_cases hsp : isSpecialByte b = true
    · rw [if_pos hsp]
      show unescapeGo (backslashByte :: b :: escape rest) false = b :: rest
      rw [unescapeGo_backslash, unescapeGo_special_checked _ hsp, ih hrest]
    · rw [if_neg hsp]
      have hsp' : isSpecialByte b = false := by
        revert hsp
        cases isSpecialByte b <;> simp
      have hbeq : (b == backslashByte) = false := by
        rw [beq_eq_false_iff_ne]
        exact fun h => hb h.symm
      show unescapeGo (b :: escape rest) false = b :: rest
      rw [unescapeGo_plain _ hbeq hsp', ih hrest]

/-- Claim C10: for every byte string containing no backslash,
`unescape (escape s) = s` — escape inserts one backslash before each special
byte and leaves the rest unchanged, and unescape removes exactly those; for
strings containing backslashes the round trip is not guaranteed, witnessed
by the single backslash, which escape preserves and unescape consumes. -/
theorem c10_escape_unescape_roundtrip :
    (∀ s : List Nat, backslashByte ∉ s → unescape (escape s) = s) ∧
    unescape (escape [backslashByte]) ≠ [backslashByte] := by
  refine ⟨fun s hs => unescapeGo_escape s hs, by decide⟩

/-- Claim C10, witness: the bytes of `a b` (with an escaped special space)
round-trip. -/
theorem c10_witness :
    backslashByte ∉ ([97, 32, 98] : List Nat) ∧
    unescape (escape [97, 32, 98]) = [97, 32, 98] :=
  ⟨by decide, c10_escape_unescape_roundtrip.1 [97, 32, 98] (by decide)⟩

end IonSpec
